import Mathlib

/-!
Verification of the RTP-MIDI packet codec and session registry of the
go-midi-rtp repository, as a shallow embedding in Lean.

Byte buffers are embedded as List Nat (each element a byte value).
Go machine integers become Nat or Int with explicit wrap-arounds where
the width matters.  Go panics (out-of-range indexing and slicing) are
made explicit: indexing uses Option lookups and the distinguished
results PR.panicked / DecodeResult.panicked mark executions on which
the Go program would panic.  The decode loops are embedded with an
explicit fuel parameter that strictly dominates the number of loop
iterations reachable from the given list length, so the distinguished
PR.outOfFuel value is unreachable on faithful runs; it is kept apart
from panics so that no claim can confuse the two.
-/

set_option maxRecDepth 8000

/-! ## Constants (src/rtp/rtp.go) -/

def minimumBufferLength : Nat := 12

def ptMask : Nat := 0x7f

def payloadType : Nat := 0x61

def firstByte : Nat := 0x80

def secondByte : Nat := payloadType

def deltaTimeMask : Nat := 0x7f

def deltaTimeHasNext : Nat := 0x80

def bigHeaderBit : Nat := 0x80

def journalBit : Nat := 0x40

def zeroDeltaBit : Nat := 0x20

def lenMask : Nat := 0x0f

/-! ## MIDI command table (midi package, src/unnamed/part_000)

The Go table maps a status byte to a commandInfo record; only the
dataLength field is ever consumed by the codec, so the embedding keeps
just the data length.  -/

def commandsInfos (b : Nat) : Option Int :=
  match b with
  | 0x80 => some 2    -- noteOff
  | 0x90 => some 2    -- noteOn
  | 0xa0 => some 2    -- polyphonicAftertouch
  | 0xb0 => some 2    -- controlChange
  | 0xc0 => some 1    -- programChange
  | 0xd0 => some 1    -- channelAftertouch
  | 0xe0 => some 2    -- pitchBend
  | 0xf0 => some (-1) -- systemExclusive
  | 0xf1 => some 1    -- quarterFrame
  | 0xf2 => some 2    -- songPosition
  | 0xf3 => some 1    -- songSelect
  | 0xf6 => some 0    -- tuneRequest
  | 0xf8 => some 0    -- clock
  | 0xfa => some 0    -- start
  | 0xfb => some 0    -- continue
  | 0xfc => some 0    -- stop
  | 0xfe => some 0    -- activeSensing
  | 0xff => some 0    -- reset
  | _ => none

def GetCommandInfo (command : Nat) : Option Int :=
  match commandsInfos command with
  | some info => some info
  | none => commandsInfos (command &&& 0xf0)

def GetDataLength (command : Nat) : Int :=
  match GetCommandInfo command with
  | some info => info
  | none => 0

/-! ## Data model (src/rtp/rtp.go)

MIDICommand.DeltaTime is the Go time.Duration, an int64 count of
nanoseconds, embedded as Int.  The wall-clock Timestamp field of the
Go MIDICommands record is consumed only by the external timestamp
collaborator and is dropped from the embedding.  -/

structure MIDICommand where
  DeltaTime : Int
  Payload : List Nat
deriving DecidableEq, Repr

structure MIDICommands where
  Commands : List MIDICommand
deriving DecidableEq, Repr

structure MIDIMessage where
  SequenceNumber : Nat
  SSRC : Nat
  Commands : MIDICommands
deriving DecidableEq, Repr

/-! ## MIDI list parsing (parseMIDIList in src/rtp/rtp.go) -/

/-- Result of the MIDI list parse loop.  ok carries the accumulated
commands and whether the incomplete-command error was returned.  -/
inductive PR where
  | outOfFuel : PR
  | panicked : PR
  | ok (cmds : List MIDICommand) (err : Bool) : PR
deriving DecidableEq, Repr

/-- The inner delta-time loop of parseMIDIList, reading from the
suffix of the buffer that starts at the current offset.  Returns the
accumulated value and the number of octets consumed, or none when the
Go code would index past the end of the buffer.  k counts the
remaining loop iterations, 4 at entry.  -/
def readDelta (l : List Nat) (k : Nat) (dt : Nat) : Option (Nat × Nat) :=
  match k, l with
  | 0, _ => some (dt, 0)
  | _ + 1, [] => none
  | k + 1, oct :: t =>
    let dt' := ((dt <<< 7) ||| (oct &&& deltaTimeMask)) % 4294967296
    if oct &&& deltaTimeHasNext == 0 then some (dt', 1)
    else
      match readDelta t k dt' with
      | none => none
      | some (v, c) => some (v, c + 1)

/-- The SysEx scan loop of parseMIDIList: counts leading octets of the
given suffix whose high bit is clear, stopping at the end of the
buffer or at the first high-bit octet.  -/
def scanCount : List Nat → Nat
  | [] => 0
  | b :: t => if b &&& 0x80 == 0 then scanCount t + 1 else 0

/-- Outcome of one loop body of parseMIDIList after the status byte
has been resolved.  -/
inductive StepRes where
  | panicked : StepRes
  | incomplete : StepRes
  | next (acc : List MIDICommand) (off : Nat) : StepRes
deriving DecidableEq, Repr

/-- One loop body of parseMIDIList from the point where the status
byte sb has been resolved and the cursor stands at off2 (just past the
consumed status byte, if any).  dt is the decoded delta time value in
milliseconds.  Mirrors rtp.go lines 301-333: SysEx length scan, the
incomplete-command check, payload construction, and the drop of an
unterminated SysEx command.  -/
def parseStep (B : List Nat) (acc : List MIDICommand) (sb : Nat) (off2 : Nat)
    (dt : Nat) : StepRes :=
  let dl : Option Int :=
    if sb == 0xf0 then
      let dl0 := scanCount (B.drop off2)
      match B[off2 + dl0]? with
      | none => none
      | some t => some ((if t == 0xf7 then (dl0 : Int) else (dl0 : Int) - 1) + 1)
    else some (GetDataLength sb)
  match dl with
  | none => .panicked
  | some dataLength =>
    if (B.length : Int) < (off2 : Int) + dataLength then .incomplete
    else
      let payload := if 0 < dataLength then sb :: ((B.drop off2).take dataLength.toNat) else [sb]
      let off3 := if 0 < dataLength then off2 + dataLength.toNat else off2
      if payload.headD 0 == 0xf0 && payload.getLastD 0 != 0xf7 then .next acc off3
      else .next (acc ++ [⟨(dt : Int) * 1000000, payload⟩]) off3

/-- The main loop of parseMIDIList.  e is the absolute end cursor
(listStart + LEN), Z the preceding-delta-time flag, acc the emitted
commands, ls the running status byte, off the cursor.  fuel strictly
dominates the number of iterations actually reachable.  -/
def parseLoop (B : List Nat) (e : Nat) (Z : Bool) :
    Nat → List MIDICommand → Nat → Nat → PR
  | 0, _, _, _ => .outOfFuel
  | fuel + 1, acc, ls, off =>
    if off < e then
      match (if acc.length > 0 || Z then readDelta (B.drop off) 4 0 else some (0, 0)) with
      | none => .panicked
      | some (dt, consumed) =>
        let off1 := off + consumed
        match B[off1]? with
        | none => .panicked
        | some cand =>
          if cand &&& 0x80 == 0x80 then
            match parseStep B acc cand (off1 + 1) dt with
            | .panicked => .panicked
            | .incomplete => .ok acc true
            | .next acc' off3 => parseLoop B e Z fuel acc' cand off3
          else
            match parseStep B acc ls off1 dt with
            | .panicked => .panicked
            | .incomplete => .ok acc true
            | .next acc' off3 => parseLoop B e Z fuel acc' ls off3
    else .ok acc false

/-- parseMIDIList: the initial running status byte is the zero value
of the Go byte variable lastStatusByte.  -/
def parseMIDIList (B : List Nat) (listStart : Nat) (Z : Bool) (len : Nat) : PR :=
  parseLoop B (listStart + len) Z (2 * len + 4) [] 0 listStart

/-! ## Decode (src/rtp/rtp.go lines 175-243) -/

inductive DecodeErr where
  | tooShort : DecodeErr
  | payloadTypeMismatch : DecodeErr
deriving DecidableEq, Repr

inductive DecodeResult where
  | outOfFuel : DecodeResult
  | panicked : DecodeResult
  | err (msg : MIDIMessage) (e : DecodeErr) : DecodeResult
  | ok (msg : MIDIMessage) : DecodeResult
deriving DecidableEq, Repr

/-- Indexed byte read; used only at positions the length guard has
already shown to be in range, where the default cannot be produced. -/
def byteAt (B : List Nat) (i : Nat) : Nat := (B[i]?).getD 0

/-- Sequence number, big-endian from bytes 2-3. -/
def seqOf (B : List Nat) : Nat := byteAt B 2 * 256 + byteAt B 3

/-- SSRC, big-endian from bytes 8-11. -/
def ssrcOf (B : List Nat) : Nat :=
  ((byteAt B 8 * 256 + byteAt B 9) * 256 + byteAt B 10) * 256 + byteAt B 11

/-- Reads the MIDI list header at byte 12 (and 13 when the B flag is
set): returns the Z flag, the list start offset and LEN, or none when
the Go code would panic indexing past the buffer.  -/
def listHeaderOf (B : List Nat) : Option (Bool × Nat × Nat) :=
  match B[12]? with
  | none => none
  | some b12 =>
    if 0 < b12 &&& bigHeaderBit then
      match B[13]? with
      | none => none
      | some b13 => some (0 < b12 &&& zeroDeltaBit, 14, (b12 * 256 + b13) &&& 0x0fff)
    else some (0 < b12 &&& zeroDeltaBit, 13, b12 &&& lenMask)

/-- Decode a byte buffer into a MIDIMessage.  The decoded wall-clock
Timestamp (time.Now in Go) is dropped from the embedding.  Note that
the error of parseMIDIList is printed and swallowed by the Go code:
the ok result keeps only the partially parsed commands.  -/
def Decode (B : List Nat) : DecodeResult :=
  if B.length < minimumBufferLength then .err ⟨0, 0, ⟨[]⟩⟩ .tooShort
  else
    let seq := seqOf B
    let ssrc := ssrcOf B
    if byteAt B 1 &&& ptMask ≠ payloadType then .err ⟨seq, ssrc, ⟨[]⟩⟩ .payloadTypeMismatch
    else
      match listHeaderOf B with
      | none => .panicked
      | some (Z, listStart, len) =>
        match parseMIDIList B listStart Z len with
        | .outOfFuel => .outOfFuel
        | .panicked => .panicked
        | .ok cmds _err => .ok ⟨seq, ssrc, ⟨cmds⟩⟩

/-! ## Encode (src/rtp/rtp.go lines 343-357, 402-441) -/

/-- Modelled from the spec: the external timestamp collaborator
(timestamp.EncodeDeltaTime, whose source is not part of this
repository) writes a list delta-time as a big-endian base-128 varint
of 1 to 4 octets, each octet contributing its low 7 bits, every octet
except the last carrying the continuation high bit (spec sections 4.1
and 6; the exact tick scaling is left open by the spec, modelled here
as one unit per millisecond, matching the decode direction, with
values truncated to the 28 bits a 4-octet varint can carry).  -/
def varintCore (m : Nat) : List Nat :=
  if m < 128 then [m]
  else if m < 16384 then [128 + m / 128, m % 128]
  else if m < 2097152 then [128 + m / 16384, 128 + m / 128 % 128, m % 128]
  else [128 + m / 2097152, 128 + m / 16384 % 128, 128 + m / 128 % 128, m % 128]

def toVarint (n : Nat) : List Nat := varintCore (n % 268435456)

/-- Modelled from the spec: duration-to-varint conversion of the
timestamp collaborator; the duration is in nanoseconds, converted to
milliseconds.  -/
def encodeDeltaTime (d : Int) : List Nat := toVarint (d.toNat / 1000000)

/-- The per-command blocks of the MIDI list body for every command
after the first: a delta-time varint followed by the raw payload
(MIDIPayload.encode writes nothing for an empty payload, which equals
appending it).  -/
def bodyRest (cs : List MIDICommand) : List Nat :=
  match cs with
  | [] => []
  | c :: t => encodeDeltaTime c.DeltaTime ++ c.Payload ++ bodyRest t

/-- The MIDI list body buffer b of MIDICommands.encode: the first
command is prefixed by a delta-time varint only when its DeltaTime is
positive.  -/
def listBody (cs : List MIDICommand) : List Nat :=
  match cs with
  | [] => []
  | c :: t =>
    (if 0 < c.DeltaTime then encodeDeltaTime c.DeltaTime else []) ++ c.Payload ++ bodyRest t

/-- The Z flag of the list header: set iff the first command has a
positive DeltaTime.  -/
def zFlagOf (cs : List MIDICommand) : Nat :=
  match cs with
  | [] => 0
  | c :: _ => if 0 < c.DeltaTime then zeroDeltaBit else 0

/-- MIDICommands.encode: list header selection and body.  An empty
command list writes the single zero header octet.  A body above 4095
octets falls into the unimplemented FIXME branch of the Go code, which
writes no header octet at all before the body.  -/
def MIDICommands.encode (mcs : MIDICommands) : List Nat :=
  match mcs.Commands with
  | [] => [0x00]
  | _ =>
    let header := zFlagOf mcs.Commands
    let b := listBody mcs.Commands
    if b.length > 4095 then b
    else if b.length > 15 then
      (header ||| bigHeaderBit ||| ((b.length >>> 8) &&& lenMask)) :: (b.length % 256) :: b
    else (header ||| (b.length &&& lenMask)) :: b

/-- Big-endian bytes of a 16-bit value (binary.Write of uint16). -/
def be16 (v : Nat) : List Nat := [(v >>> 8) % 256, v % 256]

/-- Big-endian bytes of a 32-bit value (binary.Write of uint32). -/
def be32 (v : Nat) : List Nat :=
  [(v >>> 24) % 256, (v >>> 16) % 256, (v >>> 8) % 256, v % 256]

/-- Encode the MIDIMessage into a byte buffer.  ts is the uint32
header timestamp produced by the external timestamp collaborator
(timestamp.Of, not part of this repository); Decode never reads it, so
it stays an arbitrary parameter.  -/
def Encode (m : MIDIMessage) (ts : Nat) : List Nat :=
  firstByte :: secondByte :: (be16 (m.SequenceNumber % 65536) ++ be32 (ts % 4294967296)
    ++ be32 (m.SSRC % 4294967296) ++ m.Commands.encode)

/-! ## Session and registry (src/session/session.go)

The network transmission side of the session (sockets, goroutines) is
outside the embedding; what remains is the state change and the
message construction of the outbound send operations, and the registry
operations of the control dispatch.  -/

/-- Modelled from the spec: the lifecycle states of a connection
(section 4.3); the stream source file is not under src, only the
initial state is ever assigned by the code under analysis.  -/
inductive ConnState where
  | initial : ConnState
  | established : ConnState
  | ended : ConnState
deriving DecidableEq, Repr

/-- Modelled from the spec: the per-remote-participant connection
record (section 3, Connection); the MIDINetworkStream struct lives in
a source file that is not under src, its fields reconstructed from the
spec and from the uses in session.go (createConnection assigns the
remote SSRC, the advertised name and the initial state; the back
reference to the owning session is dropped).  -/
structure MIDINetworkStream where
  RemoteSSRC : Nat
  BonjourName : String
  State : ConnState
deriving DecidableEq, Repr

/-- Modelled from the spec: the control-message contract of the sip
collaborator (spec section 6): a command kind, the remote SSRC and the
advertised name.  -/
inductive ControlCmd where
  | invitation : ControlCmd
  | endSession : ControlCmd
  | other : ControlCmd
deriving DecidableEq, Repr

structure ControlMessage where
  Cmd : ControlCmd
  SSRC : Nat
  Name : String
deriving DecidableEq, Repr

/-- The registry: the sync.Map of session.go keyed by remote SSRC,
embedded as an association list in insertion order.  -/
abbrev Registry := List (Nat × MIDINetworkStream)

/-- sync.Map.Load. -/
def regLoad (reg : Registry) (k : Nat) : Option MIDINetworkStream :=
  match reg.find? (fun p => p.1 == k) with
  | some p => some p.2
  | none => none

/-- sync.Map.LoadOrStore: returns the updated registry, the actual
value for the key, and whether the key was already present.  -/
def regLoadOrStore (reg : Registry) (k : Nat) (v : MIDINetworkStream) :
    Registry × MIDINetworkStream × Bool :=
  match regLoad reg k with
  | some c => (reg, c, true)
  | none => (reg ++ [(k, v)], v, false)

structure MIDINetworkSession where
  SSRC : Nat
  SequenceNumber : Nat
  StartTime : Nat
  connections : Registry

/-- createConnection (session.go lines 164-173). -/
def createConnection (msg : ControlMessage) : MIDINetworkStream :=
  ⟨msg.SSRC, msg.Name, .initial⟩

/-- getConnection (session.go lines 133-148): on an Invitation the
registry is load-or-stored with a freshly created connection,
otherwise a plain load.  Returns the updated session state and the
connection found, if any.  -/
def getConnection (s : MIDINetworkSession) (msg : ControlMessage) :
    MIDINetworkSession × Option MIDINetworkStream :=
  if msg.Cmd = ControlCmd.invitation then
    let (reg', c, _found) := regLoadOrStore s.connections msg.SSRC (createConnection msg)
    ({ s with connections := reg' }, some c)
  else
    match regLoad s.connections msg.SSRC with
    | none => (s, none)
    | some c => (s, some c)

/-- SendMIDICommands (session.go lines 74-85): increments the 16-bit
sequence number, builds one message from it and the session SSRC, and
has every registered connection transmit it (the transmission is
socket io, outside the embedding; the registry is only iterated).
Returns the updated session and the single message built.  -/
def SendMIDICommands (s : MIDINetworkSession) (mcs : MIDICommands) :
    MIDINetworkSession × MIDIMessage :=
  let seq' := (s.SequenceNumber + 1) % 65536
  ({ s with SequenceNumber := seq' }, ⟨seq', s.SSRC, mcs⟩)

/-- SendMIDIPayload (session.go lines 64-71): wraps the payload in a
single command with zero delta time and delegates.  -/
def SendMIDIPayload (s : MIDINetworkSession) (payload : List Nat) :
    MIDINetworkSession × MIDIMessage :=
  SendMIDICommands s ⟨[⟨0, payload⟩]⟩

/-! ## Well-formed commands

A payload is well formed when it begins with a genuine status byte
and its data bytes are exactly what the wire format transports: a
non-SysEx status carries the data-byte count of the command table, a
SysEx payload is 0xF0, data octets with clear high bit, and the 0xF7
terminator.  -/

def wfPayload (p : List Nat) : Bool :=
  match p with
  | [] => false
  | s :: data =>
    decide (128 ≤ s) && decide (s < 256) && data.all (fun b => decide (b < 256)) &&
    (if s == 0xf0 then
      (data.getLastD 0 == 0xf7) && data.dropLast.all (fun b => decide (b < 128)) &&
        decide (data ≠ [])
     else data.length == (GetDataLength s).toNat)

/-! ## Small byte-level facts, settled by bounded evaluation -/

theorem byte_and128_eq0 : ∀ b < 256, (b &&& 128 == 0) = decide (b < 128) := by decide

theorem byte_and128_eq128 : ∀ b < 256, (b &&& 128 == 128) = decide (128 ≤ b) := by decide

theorem and15_small : ∀ x < 16, x &&& 15 = x := by decide

theorem hdr_low_bits :
    ∀ hi < 16, ((0 ||| 128 ||| hi) &&& 128 = 128) ∧ ((32 ||| 128 ||| hi) &&& 128 = 128) ∧
      ((0 ||| 128 ||| hi) &&& 15 = hi) ∧ ((32 ||| 128 ||| hi) &&& 15 = hi) := by decide

theorem compact_hdr_bits :
    ∀ len < 16, ((0 ||| len) &&& 128 = 0) ∧ ((32 ||| len) &&& 128 = 0) ∧
      ((0 ||| len) &&& 15 = len) ∧ ((32 ||| len) &&& 15 = len) := by decide

/-! ## Claim theorems -/

/-- Claim C2: refutation part.  The claim states that Decode is total
and never reads past the end of the buffer, returning a Message
normally whenever the buffer has at least 12 bytes and a valid payload
type.  The code instead reads buffer index 12 unconditionally, so a
12-byte buffer with valid payload type panics, as does a buffer whose
SysEx command runs to the end of the buffer without a high-bit octet
(the terminator test indexes one past the scan).  The true part also
evaluated here: an 11-byte buffer fails with the too-short condition
and zero commands.  -/
theorem c2_decode_panics :
    Decode [0x80, 0x61, 0, 0, 0, 0, 0, 0, 0, 0, 0, 0] = .panicked ∧
    Decode [0x80, 0x61, 0, 0, 0, 0, 0, 0, 0, 0, 0, 0, 0x01, 0xf0] = .panicked ∧
    Decode [0x80, 0x61, 0, 0, 0, 0, 0, 0, 0, 0, 0]
      = .err ⟨0, 0, ⟨[]⟩⟩ .tooShort := by decide

/-- Claim C5: the MIDI list segment F0 01 02 F7 decodes to exactly one
command carrying those four bytes; the segment F0 01 02 90 40 40 emits
no command for the unterminated SysEx and resumes with 90 as the next
status byte, producing exactly the note-on command.  -/
theorem c5_sysex_decode :
    Decode ([0x80, 0x61, 0, 0, 0, 0, 0, 0, 0, 0, 0, 0]
        ++ [0x04, 0xf0, 0x01, 0x02, 0xf7])
      = .ok ⟨0, 0, ⟨[⟨0, [0xf0, 0x01, 0x02, 0xf7]⟩]⟩⟩ ∧
    Decode ([0x80, 0x61, 0, 0, 0, 0, 0, 0, 0, 0, 0, 0]
        ++ [0x06, 0xf0, 0x01, 0x02, 0x90, 0x40, 0x40])
      = .ok ⟨0, 0, ⟨[⟨0, [0x90, 0x40, 0x40]⟩]⟩⟩ := by decide

/-- Claim C8: each outbound send bumps the 16-bit sequence number by
one (wrapping), builds exactly one message carrying that number and
the session SSRC, leaves SSRC, start time and the registry unchanged,
and SendMIDIPayload delegates to SendMIDICommands with one command.  -/
theorem c8_send_increments :
    ∀ (s : MIDINetworkSession) (mcs : MIDICommands) (payload : List Nat),
      (SendMIDICommands s mcs).1.SequenceNumber = (s.SequenceNumber + 1) % 65536 ∧
      (SendMIDICommands s mcs).2
        = ⟨(s.SequenceNumber + 1) % 65536, s.SSRC, mcs⟩ ∧
      (SendMIDICommands s mcs).1.SSRC = s.SSRC ∧
      (SendMIDICommands s mcs).1.StartTime = s.StartTime ∧
      (SendMIDICommands s mcs).1.connections = s.connections ∧
      SendMIDIPayload s payload = SendMIDICommands s ⟨[⟨0, payload⟩]⟩ := by
  intro s mcs payload
  exact ⟨rfl, rfl, rfl, rfl, rfl, rfl⟩

/-- Claim C6: delta-time varint decoding.  The sequence 81 00 decodes
to 128 and 00 to 0; after three continuation octets the fourth octet
terminates the varint unconditionally; inside a full packet the delta
is read for a command after the first (value accumulated in
milliseconds: 128 ms = 128000000 ns) and for the first command when
the Z flag is set, and not for the first command otherwise.  -/
theorem c6_delta_varint :
    readDelta [0x81, 0x00] 4 0 = some (128, 2) ∧
    readDelta [0x00] 4 0 = some (0, 1) ∧
    (∀ b0 b1 b2 b3 : Nat, ∀ rest : List Nat,
      (b0 &&& 0x80 == 0) = false → (b1 &&& 0x80 == 0) = false →
      (b2 &&& 0x80 == 0) = false →
      ∃ v, readDelta (b0 :: b1 :: b2 :: b3 :: rest) 4 0 = some (v, 4)) ∧
    Decode ([0x80, 0x61, 0, 5, 0, 0, 0, 0, 0, 0, 0, 7]
        ++ [0x07, 0x90, 0x40, 0x40, 0x81, 0x00, 0xc0, 0x05])
      = .ok ⟨5, 7, ⟨[⟨0, [0x90, 0x40, 0x40]⟩, ⟨128000000, [0xc0, 0x05]⟩]⟩⟩ ∧
    Decode ([0x80, 0x61, 0, 0, 0, 0, 0, 0, 0, 0, 0, 0]
        ++ [0x24, 0x00, 0x90, 0x40, 0x40])
      = .ok ⟨0, 0, ⟨[⟨0, [0x90, 0x40, 0x40]⟩]⟩⟩ := by
  refine ⟨by decide, by decide, ?_, by decide, by decide⟩
  intro b0 b1 b2 b3 rest h0 h1 h2
  simp only [readDelta, deltaTimeHasNext, deltaTimeMask, h0, h1, h2, if_false,
    Bool.false_eq_true]
  cases h3 : b3 &&& 128 == 0 <;> simp [h3]

/-- Claim C6 witness: the four-octet stop, instantiated.  -/
theorem c6_delta_varint_witness :
    ∃ v, readDelta [0x80, 0x81, 0x82, 0x00] 4 0 = some (v, 4) :=
  c6_delta_varint.2.2.1 0x80 0x81 0x82 0x00 [] (by decide) (by decide) (by decide)

/-- Claim C7: an empty command sequence encodes as the single zero
list-header octet with no body; a body of exactly 15 bytes gets the
compact one-octet header (B flag clear, 4-bit length 15); a body in
the range (15, 4095] gets the extended two-octet header with the B
flag set and the 12-bit length split over the two octets.  -/
theorem c7_header_width :
    MIDICommands.encode ⟨[]⟩ = [0x00] ∧
    (∀ mcs : MIDICommands, mcs.Commands ≠ [] →
      (listBody mcs.Commands).length = 15 →
      ∃ h1, mcs.encode = h1 :: listBody mcs.Commands ∧
        h1 &&& bigHeaderBit = 0 ∧ h1 &&& lenMask = 15) ∧
    (∀ mcs : MIDICommands, mcs.Commands ≠ [] →
      15 < (listBody mcs.Commands).length → (listBody mcs.Commands).length ≤ 4095 →
      ∃ h1 h2, mcs.encode = h1 :: h2 :: listBody mcs.Commands ∧
        h1 &&& bigHeaderBit = bigHeaderBit ∧
        (h1 &&& lenMask) * 256 + h2 = (listBody mcs.Commands).length) := by
  have hzflag : ∀ c : MIDICommand, ∀ t, zFlagOf (c :: t) = 0 ∨ zFlagOf (c :: t) = 32 := by
    intro c t
    by_cases h : 0 < c.DeltaTime
    · right; simp [zFlagOf, h, zeroDeltaBit]
    · left; simp [zFlagOf, h]
  have hbig : ∀ hi < 16, ∀ z, z = 0 ∨ z = 32 →
      ((z ||| 128 ||| hi) &&& 128 = 128) ∧ ((z ||| 128 ||| hi) &&& 15 = hi) := by
    intro hi hhi z hz
    rcases hz with rfl | rfl
    · exact ⟨(hdr_low_bits hi hhi).1, (hdr_low_bits hi hhi).2.2.1⟩
    · exact ⟨(hdr_low_bits hi hhi).2.1, (hdr_low_bits hi hhi).2.2.2⟩
  have hcompact : ∀ len < 16, ∀ z, z = 0 ∨ z = 32 →
      ((z ||| len) &&& 128 = 0) ∧ ((z ||| len) &&& 15 = len) := by
    intro len hlen z hz
    rcases hz with rfl | rfl
    · exact ⟨(compact_hdr_bits len hlen).1, (compact_hdr_bits len hlen).2.2.1⟩
    · exact ⟨(compact_hdr_bits len hlen).2.1, (compact_hdr_bits len hlen).2.2.2⟩
  refine ⟨rfl, ?_, ?_⟩
  · rintro ⟨cs⟩ hne hlen
    obtain ⟨c, t, rfl⟩ := List.exists_cons_of_ne_nil hne
    simp only at hlen
    have h15 : (15 : Nat) &&& lenMask = 15 := by decide
    refine ⟨zFlagOf (c :: t) ||| (15 &&& lenMask), ?_, ?_, ?_⟩
    · simp [MIDICommands.encode, hlen]
    · simp only [bigHeaderBit, h15]
      exact (hcompact 15 (by omega) _ (hzflag c t)).1
    · simp only [lenMask] at h15 ⊢
      rw [h15]
      exact (hcompact 15 (by omega) _ (hzflag c t)).2
  · rintro ⟨cs⟩ hne hlo hhi
    obtain ⟨c, t, rfl⟩ := List.exists_cons_of_ne_nil hne
    simp only at hlo hhi
    set L := (listBody (c :: t)).length with hL
    have hdiv : L >>> 8 = L / 256 := by
      rw [Nat.shiftRight_eq_div_pow]
    have hhi16 : L >>> 8 < 16 := by omega
    have hand : (L >>> 8) &&& lenMask = L >>> 8 := and15_small _ hhi16
    refine ⟨zFlagOf (c :: t) ||| bigHeaderBit ||| ((L >>> 8) &&& lenMask), L % 256, ?_, ?_, ?_⟩
    · simp only [MIDICommands.encode]
      rw [if_neg (by omega), if_pos (by omega)]
    · simp only [bigHeaderBit, lenMask]
      simp only [lenMask] at hand
      rw [hand]
      exact (hbig _ hhi16 _ (hzflag c t)).1
    · simp only [bigHeaderBit, lenMask]
      simp only [lenMask] at hand
      rw [hand, (hbig _ hhi16 _ (hzflag c t)).2, hdiv]
      omega

/-- Claim C7 witness: a 15-byte body takes the compact header and a
16-byte body the extended header, on concrete single-command
messages.  -/
theorem c7_header_width_witness :
    (∃ h1, MIDICommands.encode ⟨[⟨0, List.replicate 15 0x40⟩]⟩
        = h1 :: listBody [⟨0, List.replicate 15 0x40⟩] ∧
      h1 &&& bigHeaderBit = 0 ∧ h1 &&& lenMask = 15) ∧
    (∃ h1 h2, MIDICommands.encode ⟨[⟨0, List.replicate 16 0x40⟩]⟩
        = h1 :: h2 :: listBody [⟨0, List.replicate 16 0x40⟩] ∧
      h1 &&& bigHeaderBit = bigHeaderBit ∧
      (h1 &&& lenMask) * 256 + h2 = (listBody [⟨0, List.replicate 16 0x40⟩]).length) :=
  ⟨c7_header_width.2.1 ⟨[⟨0, List.replicate 15 0x40⟩]⟩ (by decide) (by decide),
   c7_header_width.2.2 ⟨[⟨0, List.replicate 16 0x40⟩]⟩ (by decide) (by decide) (by decide)⟩

/-- Claim C9: an Invitation for an already-registered SSRC leaves the
registry unchanged and returns the existing connection; an Invitation
for an unknown SSRC inserts exactly one new connection in the initial
state keyed by that SSRC.  -/
theorem c9_registry_idempotent :
    ∀ (s : MIDINetworkSession) (msg : ControlMessage),
      msg.Cmd = ControlCmd.invitation →
      (∀ c, regLoad s.connections msg.SSRC = some c →
        getConnection s msg = (s, some c)) ∧
      (regLoad s.connections msg.SSRC = none →
        getConnection s msg
          = ({ s with connections := s.connections ++ [(msg.SSRC, createConnection msg)] },
             some (createConnection msg)) ∧
        (createConnection msg).State = ConnState.initial ∧
        ((s.connections ++ [(msg.SSRC, createConnection msg)]).filter
            (fun p => p.1 == msg.SSRC)).length = 1) := by
  intro s msg hinv
  constructor
  · intro c hc
    simp only [getConnection, hinv, if_pos, regLoadOrStore, hc]
  · intro hnone
    refine ⟨?_, rfl, ?_⟩
    · simp only [getConnection, hinv, if_pos, regLoadOrStore, hnone]
    · have hfilter : s.connections.filter (fun p => p.1 == msg.SSRC) = [] := by
        rw [List.filter_eq_nil_iff]
        intro p hp hkey
        have hsome : (s.connections.find? (fun q => q.1 == msg.SSRC)).isSome :=
          List.find?_isSome.mpr ⟨p, hp, hkey⟩
        unfold regLoad at hnone
        cases hfo : s.connections.find? (fun q => q.1 == msg.SSRC) with
        | none => rw [hfo] at hsome; exact absurd hsome (by simp)
        | some q => rw [hfo] at hnone; exact absurd hnone (by simp)
      rw [List.filter_append, hfilter]
      simp

/-- Claim C9 witness: on a concrete registry, a repeated Invitation
for SSRC 42 returns the stored connection without change, and an
Invitation for an unknown SSRC inserts exactly one entry in the
initial state.  -/
theorem c9_registry_idempotent_witness :
    getConnection ⟨1, 2, 3, [(42, ⟨42, "peer", ConnState.initial⟩)]⟩
        ⟨ControlCmd.invitation, 42, "other"⟩
      = (⟨1, 2, 3, [(42, ⟨42, "peer", ConnState.initial⟩)]⟩,
         some ⟨42, "peer", ConnState.initial⟩) ∧
    (getConnection ⟨1, 2, 3, []⟩ ⟨ControlCmd.invitation, 42, "peer"⟩
      = (⟨1, 2, 3, [(42, ⟨42, "peer", ConnState.initial⟩)]⟩,
         some ⟨42, "peer", ConnState.initial⟩) ∧
      (createConnection ⟨ControlCmd.invitation, 42, "peer"⟩).State = ConnState.initial ∧
      ((([] : Registry) ++ [(42, createConnection ⟨ControlCmd.invitation, 42, "peer"⟩)]).filter
          (fun p : Nat × MIDINetworkStream => p.1 == 42)).length = 1) :=
  ⟨(c9_registry_idempotent ⟨1, 2, 3, [(42, ⟨42, "peer", ConnState.initial⟩)]⟩
      ⟨ControlCmd.invitation, 42, "other"⟩ rfl).1 ⟨42, "peer", ConnState.initial⟩ rfl,
   (c9_registry_idempotent ⟨1, 2, 3, []⟩ ⟨ControlCmd.invitation, 42, "peer"⟩ rfl).2 rfl⟩

/-- Claim C3 refutation: at a concrete buffer whose note-on command is
missing a data byte, the list parser does fail with the
incomplete-command error and keeps the commands parsed so far, but
Decode swallows that error: the caller gets an ok result carrying the
partial commands and no error at all.  -/
theorem c3_error_swallowed_counterexample :
    parseMIDIList [0x80, 0x61, 0, 0, 0, 0, 0, 0, 0, 0, 0, 0, 0x02, 0x90, 0x40] 13 false 2
      = .ok [] true ∧
    Decode [0x80, 0x61, 0, 0, 0, 0, 0, 0, 0, 0, 0, 0, 0x02, 0x90, 0x40]
      = .ok ⟨0, 0, ⟨[]⟩⟩ := by decide

/-- Claim C3 as amended: when the MIDI list parser stops with the
incomplete-command error, Decode delivers the commands decoded before
the failure point to its caller, but returns them in a plain ok result
with the error swallowed (logged only), not surfaced.  -/
theorem c3_partial_commands_delivered :
    ∀ (B : List Nat) (Z : Bool) (listStart len : Nat) (cmds : List MIDICommand),
      ¬ B.length < minimumBufferLength →
      byteAt B 1 &&& ptMask = payloadType →
      listHeaderOf B = some (Z, listStart, len) →
      parseMIDIList B listStart Z len = .ok cmds true →
      Decode B = .ok ⟨seqOf B, ssrcOf B, ⟨cmds⟩⟩ := by
  intro B Z listStart len cmds hlen hpt hhdr hparse
  unfold Decode
  rw [if_neg hlen, if_neg (by omega), hhdr]
  dsimp only
  rw [hparse]

/-- Claim C3 witness: the amended theorem applied at the concrete
incomplete buffer.  -/
theorem c3_partial_commands_delivered_witness :
    Decode [0x80, 0x61, 0, 9, 0, 0, 0, 0, 0, 0, 0, 3, 0x02, 0x90, 0x40]
      = .ok ⟨9, 3, ⟨[]⟩⟩ :=
  c3_partial_commands_delivered [0x80, 0x61, 0, 9, 0, 0, 0, 0, 0, 0, 0, 3, 0x02, 0x90, 0x40]
    false 13 2 [] (by decide) (by decide) (by decide) (by decide)

/-- Any command appended by one parse iteration carries the resolved
status byte as its first payload byte, a non-empty payload, and the
non-negative delta.  -/
theorem parseStep_next_cases :
    ∀ (B : List Nat) (acc : List MIDICommand) (sb off2 dt : Nat)
      (acc' : List MIDICommand) (off3 : Nat),
      parseStep B acc sb off2 dt = .next acc' off3 →
      acc' = acc ∨
        ∃ p : List Nat, p.headD 0 = sb ∧ p ≠ [] ∧
          acc' = acc ++ [⟨(dt : Int) * 1000000, p⟩] := by
  intro B acc sb off2 dt acc' off3 h
  simp only [parseStep] at h
  split at h
  · exact absurd h (by simp)
  · split at h
    · exact absurd h (by simp)
    · split at h
      · split at h
        · left
          exact ((StepRes.next.injEq _ _ _ _).mp h).1.symm
        · right
          refine ⟨_, ?_, ?_, ((StepRes.next.injEq _ _ _ _).mp h).1.symm⟩ <;> simp
      · split at h
        · left
          exact ((StepRes.next.injEq _ _ _ _).mp h).1.symm
        · right
          refine ⟨_, ?_, ?_, ((StepRes.next.injEq _ _ _ _).mp h).1.symm⟩ <;> simp

/-- Invariant of the parse loop: provided the running status byte is
either a genuine status byte or still the zero initial value, every
command in an ok result has a non-empty payload headed by a status
byte or by the zero byte, and a non-negative delta time.  -/
theorem parseLoop_ok_invariant :
    ∀ (fuel : Nat) (B : List Nat) (e : Nat) (Z : Bool) (acc : List MIDICommand)
      (ls off : Nat) (cmds : List MIDICommand) (err : Bool),
      (∀ c ∈ acc, c.Payload ≠ [] ∧
        (c.Payload.headD 0 &&& 0x80 = 0x80 ∨ c.Payload.headD 0 = 0) ∧ 0 ≤ c.DeltaTime) →
      (ls &&& 0x80 = 0x80 ∨ ls = 0) →
      parseLoop B e Z fuel acc ls off = .ok cmds err →
      ∀ c ∈ cmds, c.Payload ≠ [] ∧
        (c.Payload.headD 0 &&& 0x80 = 0x80 ∨ c.Payload.headD 0 = 0) ∧ 0 ≤ c.DeltaTime := by
  intro fuel
  induction fuel with
  | zero =>
    intro B e Z acc ls off cmds err hacc hls h
    exact absurd h (by simp [parseLoop])
  | succ n ih =>
    intro B e Z acc ls off cmds err hacc hls h
    rw [parseLoop] at h
    by_cases hoff : off < e
    · rw [if_pos hoff] at h
      cases hd : (if acc.length > 0 || Z then readDelta (B.drop off) 4 0 else some (0, 0)) with
      | none => rw [hd] at h; exact absurd h (by simp)
      | some pr =>
        obtain ⟨dt, consumed⟩ := pr
        rw [hd] at h
        dsimp only at h
        cases hB : B[off + consumed]? with
        | none => rw [hB] at h; exact absurd h (by simp)
        | some cand =>
          rw [hB] at h
          dsimp only at h
          have happend : ∀ (sb : Nat), (sb &&& 0x80 = 0x80 ∨ sb = 0) →
              ∀ (off2 : Nat) (acc' : List MIDICommand) (off3 : Nat),
              parseStep B acc sb off2 dt = .next acc' off3 →
              ∀ c ∈ acc', c.Payload ≠ [] ∧
                (c.Payload.headD 0 &&& 0x80 = 0x80 ∨ c.Payload.headD 0 = 0) ∧
                0 ≤ c.DeltaTime := by
            intro sb hsb off2 acc' off3 hstep
            rcases parseStep_next_cases B acc sb off2 dt acc' off3 hstep with
              rfl | ⟨p, hph, hpne, rfl⟩
            · exact hacc
            · intro c hc
              rcases List.mem_append.mp hc with hc | hc
              · exact hacc c hc
              · have hceq : c = ⟨(dt : Int) * 1000000, p⟩ := by simpa using hc
                subst hceq
                refine ⟨hpne, ?_, mul_nonneg (Int.natCast_nonneg dt) (by norm_num)⟩
                rw [hph]
                exact hsb
          by_cases hcand : (cand &&& 0x80 == 0x80) = true
          · rw [if_pos hcand] at h
            cases hs : parseStep B acc cand (off + consumed + 1) dt with
            | panicked => rw [hs] at h; exact absurd h (by simp)
            | incomplete => rw [hs] at h; cases h; exact hacc
            | next acc' off3 =>
              rw [hs] at h
              exact ih B e Z acc' cand off3 cmds err
                (happend cand (Or.inl (eq_of_beq hcand)) _ acc' off3 hs)
                (Or.inl (eq_of_beq hcand)) h
          · rw [if_neg hcand] at h
            cases hs : parseStep B acc ls (off + consumed) dt with
            | panicked => rw [hs] at h; exact absurd h (by simp)
            | incomplete => rw [hs] at h; cases h; exact hacc
            | next acc' off3 =>
              rw [hs] at h
              exact ih B e Z acc' ls off3 cmds err
                (happend ls hls _ acc' off3 hs) hls h
    · rw [if_neg hoff] at h
      cases h
      exact hacc

/-- Claim C4 refutation: when the first octet of the MIDI list is a
data byte and no status byte has yet been seen, the zero-initialised
running status is used, and Decode returns a command whose payload is
the single byte 00, whose first byte is not a status byte.  -/
theorem c4_running_status_counterexample :
    Decode ([0x80, 0x61, 0, 0, 0, 0, 0, 0, 0, 0, 0, 0] ++ [0x01, 0x00, 0x90, 0x40, 0x40])
      = .ok ⟨0, 0, ⟨[⟨0, [0x00]⟩, ⟨0, [0x90, 0x40, 0x40]⟩]⟩⟩ ∧
    ¬ (([0x00] : List Nat).headD 0 &&& 0x80 = 0x80) := by decide

/-- Claim C4 as amended: every command of a decoded message has a
non-negative delta time and a non-empty payload whose first byte is
either a genuine status byte (high bit set) or the byte 00, the
zero-initialised running status that is used when the list begins with
a data byte before any status byte has been seen; after a status byte
has been recorded, running status is expanded with it.  -/
theorem c4_decode_command_invariant :
    (∀ (B : List Nat) (listStart : Nat) (Z : Bool) (len : Nat)
      (cmds : List MIDICommand) (err : Bool),
      parseMIDIList B listStart Z len = .ok cmds err →
      ∀ c ∈ cmds, c.Payload ≠ [] ∧
        (c.Payload.headD 0 &&& 0x80 = 0x80 ∨ c.Payload.headD 0 = 0) ∧ 0 ≤ c.DeltaTime) ∧
    (∀ (B : List Nat) (msg : MIDIMessage), Decode B = .ok msg →
      ∀ c ∈ msg.Commands.Commands, c.Payload ≠ [] ∧
        (c.Payload.headD 0 &&& 0x80 = 0x80 ∨ c.Payload.headD 0 = 0) ∧ 0 ≤ c.DeltaTime) := by
  have hparse : ∀ (B : List Nat) (listStart : Nat) (Z : Bool) (len : Nat)
      (cmds : List MIDICommand) (err : Bool),
      parseMIDIList B listStart Z len = .ok cmds err →
      ∀ c ∈ cmds, c.Payload ≠ [] ∧
        (c.Payload.headD 0 &&& 0x80 = 0x80 ∨ c.Payload.headD 0 = 0) ∧ 0 ≤ c.DeltaTime := by
    intro B listStart Z len cmds err h
    exact parseLoop_ok_invariant (2 * len + 4) B (listStart + len) Z [] 0 listStart cmds err
      (by simp) (Or.inr rfl) h
  refine ⟨hparse, ?_⟩
  intro B msg h
  unfold Decode at h
  by_cases h12 : B.length < minimumBufferLength
  · rw [if_pos h12] at h; exact absurd h (by simp)
  · rw [if_neg h12] at h
    by_cases hpt : byteAt B 1 &&& ptMask ≠ payloadType
    · rw [if_pos hpt] at h; exact absurd h (by simp)
    · rw [if_neg hpt] at h
      cases hh : listHeaderOf B with
      | none => rw [hh] at h; exact absurd h (by simp)
      | some trip =>
        obtain ⟨Z, listStart, len⟩ := trip
        rw [hh] at h
        dsimp only at h
        cases hp : parseMIDIList B listStart Z len with
        | outOfFuel => rw [hp] at h; exact absurd h (by simp)
        | panicked => rw [hp] at h; exact absurd h (by simp)
        | ok cmds e =>
          rw [hp] at h
          cases h
          exact hparse B listStart Z len cmds e hp

/-- Claim C4 witness: the amended invariant applied to a decoded
concrete buffer, including the zero-byte head produced by the list
that starts with a data byte.  -/
theorem c4_decode_command_invariant_witness :
    ∀ c ∈ ([⟨0, [0x00]⟩, ⟨0, [0x90, 0x40, 0x40]⟩] : List MIDICommand),
      c.Payload ≠ [] ∧
        (c.Payload.headD 0 &&& 0x80 = 0x80 ∨ c.Payload.headD 0 = 0) ∧ 0 ≤ c.DeltaTime :=
  c4_decode_command_invariant.2
    ([0x80, 0x61, 0, 0, 0, 0, 0, 0, 0, 0, 0, 0] ++ [0x01, 0x00, 0x90, 0x40, 0x40])
    ⟨0, 0, ⟨[⟨0, [0x00]⟩, ⟨0, [0x90, 0x40, 0x40]⟩]⟩⟩ (by decide)

/-! ## Decode reads nothing before index 12 except the header fields
it stores: congruence lemmas for claim C10 -/

theorem drop_congr_ge (B1 B2 : List Nat) (i : Nat)
    (h : B1.drop 12 = B2.drop 12) (hi : 12 ≤ i) : B1.drop i = B2.drop i := by
  have hsplit : i = 12 + (i - 12) := by omega
  rw [hsplit, ← List.drop_drop, ← List.drop_drop, h]

theorem getElem?_congr_ge (B1 B2 : List Nat) (i : Nat)
    (h : B1.drop 12 = B2.drop 12) (hi : 12 ≤ i) : B1[i]? = B2[i]? := by
  have h0 : (B1.drop i)[0]? = (B2.drop i)[0]? := by rw [drop_congr_ge B1 B2 i h hi]
  rw [List.getElem?_drop, List.getElem?_drop] at h0
  simpa using h0

theorem parseStep_congr (B1 B2 : List Nat) (acc : List MIDICommand) (sb off2 dt : Nat)
    (hlen : B1.length = B2.length) (hdrop : B1.drop 12 = B2.drop 12) (hoff : 12 ≤ off2) :
    parseStep B1 acc sb off2 dt = parseStep B2 acc sb off2 dt := by
  have hd2 : B1.drop off2 = B2.drop off2 := drop_congr_ge B1 B2 off2 hdrop hoff
  have hget : B1[off2 + scanCount (B2.drop off2)]? = B2[off2 + scanCount (B2.drop off2)]? :=
    getElem?_congr_ge B1 B2 _ hdrop (by omega)
  simp only [parseStep, hd2, hlen, hget]

theorem parseStep_next_off_ge :
    ∀ (B : List Nat) (acc : List MIDICommand) (sb off2 dt : Nat)
      (acc' : List MIDICommand) (off3 : Nat),
      parseStep B acc sb off2 dt = .next acc' off3 → off2 ≤ off3 := by
  intro B acc sb off2 dt acc' off3 h
  simp only [parseStep] at h
  split at h
  · exact absurd h (by simp)
  · split at h
    · exact absurd h (by simp)
    · split at h <;> split at h <;>
        rw [← ((StepRes.next.injEq _ _ _ _).mp h).2] <;> omega

theorem parseLoop_congr :
    ∀ (fuel : Nat) (B1 B2 : List Nat) (e : Nat) (Z : Bool) (acc : List MIDICommand)
      (ls off : Nat),
      B1.length = B2.length → B1.drop 12 = B2.drop 12 → 12 ≤ off →
      parseLoop B1 e Z fuel acc ls off = parseLoop B2 e Z fuel acc ls off := by
  intro fuel
  induction fuel with
  | zero => intro B1 B2 e Z acc ls off hlen hdrop hoff; rfl
  | succ n ih =>
    intro B1 B2 e Z acc ls off hlen hdrop hoff
    rw [parseLoop, parseLoop]
    by_cases he : off < e
    · rw [if_pos he, if_pos he]
      rw [drop_congr_ge B1 B2 off hdrop hoff]
      cases hd : (if acc.length > 0 || Z then readDelta (B2.drop off) 4 0 else some (0, 0)) with
      | none => rfl
      | some pr =>
        obtain ⟨dt, consumed⟩ := pr
        dsimp only
        rw [getElem?_congr_ge B1 B2 (off + consumed) hdrop (by omega)]
        cases hB : B2[off + consumed]? with
        | none => rfl
        | some cand =>
          dsimp only
          by_cases hc : (cand &&& 0x80 == 0x80) = true
          · rw [if_pos hc, if_pos hc]
            rw [parseStep_congr B1 B2 acc cand (off + consumed + 1) dt hlen hdrop (by omega)]
            cases hs : parseStep B2 acc cand (off + consumed + 1) dt with
            | panicked => rfl
            | incomplete => rfl
            | next acc' off3 =>
              exact ih B1 B2 e Z acc' cand off3 hlen hdrop
                (le_trans (by omega) (parseStep_next_off_ge B2 acc cand _ dt acc' off3 hs))
          · rw [if_neg hc, if_neg hc]
            rw [parseStep_congr B1 B2 acc ls (off + consumed) dt hlen hdrop (by omega)]
            cases hs : parseStep B2 acc ls (off + consumed) dt with
            | panicked => rfl
            | incomplete => rfl
            | next acc' off3 =>
              exact ih B1 B2 e Z acc' ls off3 hlen hdrop
                (le_trans (by omega) (parseStep_next_off_ge B2 acc ls _ dt acc' off3 hs))
    · rw [if_neg he, if_neg he]

theorem listHeaderOf_start :
    ∀ (B : List Nat) (Z : Bool) (lstart len : Nat),
      listHeaderOf B = some (Z, lstart, len) → lstart = 13 ∨ lstart = 14 := by
  intro B Z lstart len h
  simp only [listHeaderOf] at h
  split at h
  · exact absurd h (by simp)
  · split at h
    · split at h
      · exact absurd h (by simp)
      · right
        have := ((Option.some.injEq _ _).mp h)
        have h2 := congrArg (fun p : Bool × Nat × Nat => p.2.1) this
        simpa using h2.symm
    · left
      have := ((Option.some.injEq _ _).mp h)
      have h2 := congrArg (fun p : Bool × Nat × Nat => p.2.1) this
      simpa using h2.symm

/-- Claim C10: the outcome of Decode does not depend on byte 0, on the
marker bit (high bit of byte 1), or on the RTP timestamp bytes 4-7:
two equal-length buffers that agree on the low 7 bits of byte 1, on
bytes 2-3 and 8-11, and on everything from byte 12 on, decode to the
same result.  -/
theorem c10_decode_header_independence :
    ∀ (B1 B2 : List Nat),
      B1.length = B2.length →
      B1.drop 12 = B2.drop 12 →
      (B1[1]?).map (fun b => b &&& ptMask) = (B2[1]?).map (fun b => b &&& ptMask) →
      (∀ i : Nat, i = 2 ∨ i = 3 ∨ (8 ≤ i ∧ i ≤ 11) → B1[i]? = B2[i]?) →
      Decode B1 = Decode B2 := by
  intro B1 B2 hlen hdrop hpt hidx
  have hbyte : ∀ i : Nat, i = 2 ∨ i = 3 ∨ (8 ≤ i ∧ i ≤ 11) → byteAt B1 i = byteAt B2 i := by
    intro i hi
    unfold byteAt
    rw [hidx i hi]
  have hseq : seqOf B1 = seqOf B2 := by
    unfold seqOf
    rw [hbyte 2 (by omega), hbyte 3 (by omega)]
  have hssrc : ssrcOf B1 = ssrcOf B2 := by
    unfold ssrcOf
    rw [hbyte 8 (by omega), hbyte 9 (by omega), hbyte 10 (by omega), hbyte 11 (by omega)]
  have hpt' : byteAt B1 1 &&& ptMask = byteAt B2 1 &&& ptMask := by
    unfold byteAt
    cases h1 : B1[1]? with
    | none =>
      cases h2 : B2[1]? with
      | none => rfl
      | some b => rw [h1, h2] at hpt; exact absurd hpt (by simp)
    | some a =>
      cases h2 : B2[1]? with
      | none => rw [h1, h2] at hpt; exact absurd hpt (by simp)
      | some b =>
        rw [h1, h2] at hpt
        simpa using hpt
  have hlh : listHeaderOf B1 = listHeaderOf B2 := by
    unfold listHeaderOf
    rw [getElem?_congr_ge B1 B2 12 hdrop (by omega),
      getElem?_congr_ge B1 B2 13 hdrop (by omega)]
  unfold Decode
  rw [hlen, hseq, hssrc, hpt', hlh]
  cases hh : listHeaderOf B2 with
  | none => rfl
  | some trip =>
    obtain ⟨Z, lstart, len⟩ := trip
    dsimp only
    have hstart : 12 ≤ lstart := by
      rcases listHeaderOf_start B2 Z lstart len hh with rfl | rfl <;> omega
    unfold parseMIDIList
    rw [parseLoop_congr (2 * len + 4) B1 B2 (lstart + len) Z [] 0 lstart hlen hdrop hstart]

/-- Claim C10 witness: two buffers differing in byte 0, the marker
bit, and the timestamp field decode identically.  -/
theorem c10_decode_header_independence_witness :
    Decode [0xb3, 0xe1, 0, 5, 9, 9, 9, 9, 0, 0, 0, 7, 0x03, 0x90, 0x40, 0x40]
      = Decode [0x80, 0x61, 0, 5, 0, 0, 0, 0, 0, 0, 0, 7, 0x03, 0x90, 0x40, 0x40] :=
  c10_decode_header_independence
    [0xb3, 0xe1, 0, 5, 9, 9, 9, 9, 0, 0, 0, 7, 0x03, 0x90, 0x40, 0x40]
    [0x80, 0x61, 0, 5, 0, 0, 0, 0, 0, 0, 0, 7, 0x03, 0x90, 0x40, 0x40]
    (by decide) (by decide) (by decide)
    (by intro i hi
        rcases hi with rfl | rfl | ⟨h8, h11⟩
        · rfl
        · rfl
        · interval_cases i <;> rfl)

/-! ## Round-trip infrastructure for claim C1 -/

theorem and128_beq0_of_lt (b : Nat) (h : b < 128) : (b &&& deltaTimeHasNext == 0) = true := by
  unfold deltaTimeHasNext
  rw [byte_and128_eq0 b (by omega)]
  simpa using h

theorem and128_beq0_of_ge (b : Nat) (h1 : 128 ≤ b) (h2 : b < 256) :
    (b &&& deltaTimeHasNext == 0) = false := by
  unfold deltaTimeHasNext
  rw [byte_and128_eq0 b h2]
  simpa using h1

theorem readDelta_step_stop (oct : Nat) (t : List Nat) (k dt : Nat) (h : oct < 128) :
    readDelta (oct :: t) (k + 1) dt
      = some (((dt <<< 7) ||| (oct &&& deltaTimeMask)) % 4294967296, 1) := by
  simp only [readDelta, and128_beq0_of_lt oct h, if_true]

theorem readDelta_step_cont (oct : Nat) (t : List Nat) (k dt : Nat)
    (h1 : 128 ≤ oct) (h2 : oct < 256) :
    readDelta (oct :: t) (k + 1) dt
      = match readDelta t k (((dt <<< 7) ||| (oct &&& deltaTimeMask)) % 4294967296) with
        | none => none
        | some (v, c) => some (v, c + 1) := by
  simp only [readDelta, and128_beq0_of_ge oct h1 h2, Bool.false_eq_true, if_false]

theorem varintCore_read (m : Nat) (hm : m < 268435456) (rest : List Nat) :
    ∃ v, readDelta (varintCore m ++ rest) 4 0 = some (v, (varintCore m).length) := by
  by_cases h1 : m < 128
  · have hv : varintCore m = [m] := by unfold varintCore; rw [if_pos h1]
    rw [hv, List.cons_append, List.nil_append, readDelta_step_stop m rest 3 0 h1]
    exact ⟨_, rfl⟩
  · by_cases h2 : m < 16384
    · have hv : varintCore m = [128 + m / 128, m % 128] := by
        unfold varintCore; rw [if_neg h1, if_pos h2]
      rw [hv, show ([128 + m / 128, m % 128] ++ rest)
          = (128 + m / 128) :: ((m % 128) :: rest) from rfl]
      rw [readDelta_step_cont _ _ 3 0 (by omega) (by omega)]
      rw [readDelta_step_stop _ rest 2 _ (by omega)]
      exact ⟨_, rfl⟩
    · by_cases h3 : m < 2097152
      · have hv : varintCore m = [128 + m / 16384, 128 + m / 128 % 128, m % 128] := by
          unfold varintCore; rw [if_neg h1, if_neg h2, if_pos h3]
        rw [hv, show ([128 + m / 16384, 128 + m / 128 % 128, m % 128] ++ rest)
            = (128 + m / 16384) :: ((128 + m / 128 % 128) :: ((m % 128) :: rest)) from rfl]
        rw [readDelta_step_cont _ _ 3 0 (by omega) (by omega)]
        rw [readDelta_step_cont _ _ 2 _ (by omega) (by omega)]
        rw [readDelta_step_stop _ rest 1 _ (by omega)]
        exact ⟨_, rfl⟩
      · have hv : varintCore m
            = [128 + m / 2097152, 128 + m / 16384 % 128, 128 + m / 128 % 128, m % 128] := by
          unfold varintCore; rw [if_neg h1, if_neg h2, if_neg h3]
        rw [hv, show ([128 + m / 2097152, 128 + m / 16384 % 128, 128 + m / 128 % 128, m % 128]
              ++ rest)
            = (128 + m / 2097152) :: ((128 + m / 16384 % 128)
              :: ((128 + m / 128 % 128) :: ((m % 128) :: rest))) from rfl]
        rw [readDelta_step_cont _ _ 3 0 (by omega) (by omega)]
        rw [readDelta_step_cont _ _ 2 _ (by omega) (by omega)]
        rw [readDelta_step_cont _ _ 1 _ (by omega) (by omega)]
        rw [readDelta_step_stop _ rest 0 _ (by omega)]
        exact ⟨_, rfl⟩

theorem varintCore_ne_nil (m : Nat) : varintCore m ≠ [] := by
  unfold varintCore
  split
  · simp
  · split
    · simp
    · split <;> simp

theorem length_of_drop_eq (B L : List Nat) (off : Nat)
    (h : B.drop off = L) (hne : L ≠ []) : B.length = off + L.length := by
  have hlen := congrArg List.length h
  rw [List.length_drop] at hlen
  by_cases hle : off ≤ B.length
  · omega
  · exfalso
    have hnil : B.drop off = [] := List.drop_eq_nil_of_le (by omega)
    rw [hnil] at h
    exact hne h.symm

theorem drop_head_eq (B : List Nat) (off x : Nat) (L : List Nat)
    (h : B.drop off = x :: L) : B[off]? = some x := by
  have h0 : (B.drop off)[0]? = some x := by rw [h]; simp
  rw [List.getElem?_drop] at h0
  simpa using h0

theorem drop_shift (B : List Nat) (off : Nat) (L rest : List Nat)
    (h : B.drop off = L ++ rest) : B.drop (off + L.length) = rest := by
  have hdd : (B.drop off).drop L.length = B.drop (off + L.length) := List.drop_drop _ _ _
  rw [← hdd, h, List.drop_left]

theorem scanCount_data (ds : List Nat) (t : Nat) (r : List Nat)
    (hds : ∀ d ∈ ds, d < 128) (ht1 : 128 ≤ t) (ht2 : t < 256) :
    scanCount (ds ++ t :: r) = ds.length := by
  induction ds with
  | nil =>
    have hcond : (t &&& 0x80 == 0) = false := by
      rw [byte_and128_eq0 t ht2]
      simpa using ht1
    simp [scanCount, hcond]
  | cons d ds ih =>
    have hd : d < 128 := hds d (by simp)
    have hcond : (d &&& 0x80 == 0) = true := by
      rw [byte_and128_eq0 d (by omega)]
      simpa using hd
    have ih' := ih (fun x hx => hds x (by simp [hx]))
    simp [scanCount, hcond, ih']


theorem parseStep_wf (B : List Nat) (acc : List MIDICommand) (s : Nat)
    (data rest : List Nat) (off2 dt : Nat)
    (hwf : wfPayload (s :: data) = true)
    (hdrop : B.drop off2 = data ++ rest)
    (hlen : B.length = off2 + data.length + rest.length) :
    parseStep B acc s off2 dt
      = .next (acc ++ [⟨(dt : Int) * 1000000, s :: data⟩]) (off2 + data.length) := by
  have hwf' := hwf
  simp only [wfPayload, Bool.and_eq_true, decide_eq_true_eq, List.all_eq_true] at hwf'
  obtain ⟨⟨⟨hs128, hs256⟩, hdata256⟩, hif⟩ := hwf'
  by_cases hsf0 : s = 0xf0
  · -- SysEx
    subst hsf0
    rw [if_pos (by simp)] at hif
    simp only [Bool.and_eq_true, decide_eq_true_eq, List.all_eq_true] at hif
    obtain ⟨⟨hlast, hdl⟩, hne⟩ := hif
    have hdlast : ∀ b ∈ data.dropLast, b < 128 := by
      intro b hb
      simpa using hdl b hb
    have hlast' : data.getLastD 0 = 0xf7 := by simpa using hlast
    have hgl : data.getLast hne = 0xf7 := by
      rw [List.getLastD_eq_getLast?, List.getLast?_eq_getLast data hne] at hlast'
      simpa using hlast'
    have hsplit : data = data.dropLast ++ [0xf7] := by
      rw [← hgl]
      exact (List.dropLast_concat_getLast hne).symm
    have hdrop2 : B.drop off2 = data.dropLast ++ (0xf7 :: rest) := by
      rw [hdrop]
      conv_lhs => rw [hsplit]
      simp
    have hscan : scanCount (B.drop off2) = data.dropLast.length := by
      rw [hdrop2]
      exact scanCount_data _ _ _ hdlast (by omega) (by omega)
    have hget : B[off2 + data.dropLast.length]? = some 0xf7 := by
      apply drop_head_eq B _ _ rest
      exact drop_shift B off2 data.dropLast (0xf7 :: rest) hdrop2
    have hdatalen : data.length = data.dropLast.length + 1 := by
      conv_lhs => rw [hsplit]
      simp
    have hcheck : ¬ ((B.length : Int) < (off2 : Int) + ((data.dropLast.length : Int) + 1)) := by
      omega
    simp only [parseStep, hscan, hget]
    rw [if_pos (by simp)]
    rw [if_pos (by simp : ((0xf7 : Nat) == 0xf7) = true)]
    dsimp only
    rw [if_neg hcheck]
    rw [if_pos (by omega : (0 : Int) < (data.dropLast.length : Int) + 1)]
    have htonat : (((data.dropLast.length : Int)) + 1).toNat = data.length := by
      omega
    rw [htonat]
    rw [hdrop, List.take_left]
    have hemit : ((((0xf0 : Nat) :: data).headD 0 == 0xf0)
        && (((0xf0 : Nat) :: data).getLastD 0 != 0xf7)) = false := by
      rw [List.getLastD_cons]
      have : data.getLastD 0xf0 = 0xf7 := by
        rw [List.getLastD_eq_getLast?, List.getLast?_eq_getLast data hne, hgl]
        rfl
      rw [this]
      simp
    rw [hemit]
    simp only [Bool.false_eq_true, if_false]
    rw [if_pos (show (0 : Int) < (data.dropLast.length : Int) + 1 by omega)]
  · -- plain command
    have hbeq : (s == 0xf0) = false := by simpa using hsf0
    rw [hbeq] at hif
    simp only [Bool.false_eq_true, if_false] at hif
    have hlen2 : data.length = (GetDataLength s).toNat := by simpa using hif
    have hg : GetDataLength s ≤ 0 ∨ GetDataLength s = (data.length : Int) := by
      rcases le_or_lt (GetDataLength s) 0 with h | h
      · exact Or.inl h
      · right
        rw [hlen2]
        exact (Int.toNat_of_nonneg h.le).symm
    have hcheck : ¬ ((B.length : Int) < (off2 : Int) + GetDataLength s) := by
      rcases hg with h | h
      · omega
      · rw [h]
        omega
    simp only [parseStep, hbeq, Bool.false_eq_true, if_false]
    rw [if_neg hcheck]
    have hemit : (((s :: data).headD 0 == 0xf0)
        && (((s : Nat) :: data).getLastD 0 != 0xf7)) = false := by
      simp only [List.headD_cons, hbeq, Bool.false_and]
    by_cases hpos : 0 < GetDataLength s
    · have hgd : GetDataLength s = (data.length : Int) := by
        rcases hg with h | h
        · omega
        · exact h
      have htonat : (GetDataLength s).toNat = data.length := by
        rw [hgd]
        simp
      rw [if_pos hpos, if_pos hpos, htonat, hdrop, List.take_left, hemit]
      simp only [Bool.false_eq_true, if_false]
    · have hdnil : data = [] := by
        have h0 : (GetDataLength s).toNat = 0 := by omega
        rw [h0] at hlen2
        exact List.eq_nil_of_length_eq_zero hlen2
      subst hdnil
      rw [if_neg hpos, if_neg hpos]
      have hemit' : ((([s] : List Nat).headD 0 == 0xf0)
          && (([s] : List Nat).getLastD 0 != 0xf7)) = false := hemit
      rw [hemit']
      simp only [Bool.false_eq_true, if_false, List.length_nil, Nat.add_zero]

theorem parseLoop_consume (B : List Nat) (e : Nat) (Z : Bool) (fuel : Nat)
    (acc : List MIDICommand) (ls off : Nat) (c : MIDICommand) (dbytes rest : List Nat)
    (hwf : wfPayload c.Payload = true)
    (hdb : if (acc.length > 0 || Z) = true then ∃ nv, nv < 268435456 ∧ dbytes = varintCore nv
           else dbytes = [])
    (hdrop : B.drop off = dbytes ++ (c.Payload ++ rest))
    (hlen : B.length = off + dbytes.length + c.Payload.length + rest.length)
    (hoff : off < e) :
    ∃ d : Int, parseLoop B e Z (fuel + 1) acc ls off
      = parseLoop B e Z fuel (acc ++ [⟨d, c.Payload⟩]) (c.Payload.headD 0)
          (off + dbytes.length + c.Payload.length) := by
  obtain ⟨s, data, hp⟩ : ∃ s data, c.Payload = s :: data := by
    cases hcp : c.Payload with
    | nil => rw [hcp] at hwf; exact absurd hwf (by simp [wfPayload])
    | cons s data => exact ⟨s, data, rfl⟩
  have hwf' := hwf
  rw [hp] at hwf'
  have hs : 128 ≤ s ∧ s < 256 := by
    simp only [wfPayload, Bool.and_eq_true, decide_eq_true_eq] at hwf'
    exact ⟨hwf'.1.1.1, hwf'.1.1.2⟩
  have hstatus : (s &&& 0x80 == 0x80) = true := by
    rw [byte_and128_eq128 s hs.2]
    simpa using hs.1
  have hdropPayload : B.drop (off + dbytes.length) = s :: (data ++ rest) := by
    have := drop_shift B off dbytes (c.Payload ++ rest) hdrop
    rw [hp] at this
    simpa using this
  have hgetS : B[off + dbytes.length]? = some s := drop_head_eq _ _ _ _ hdropPayload
  have hdropData : B.drop (off + dbytes.length + 1) = data ++ rest := by
    have := drop_shift B (off + dbytes.length) [s] (data ++ rest) (by simpa using hdropPayload)
    simpa using this
  have hlenData : B.length = (off + dbytes.length + 1) + data.length + rest.length := by
    rw [hp] at hlen
    simp only [List.length_cons] at hlen
    omega
  have hstep : ∀ dtv : Nat, parseStep B acc s (off + dbytes.length + 1) dtv
      = .next (acc ++ [⟨(dtv : Int) * 1000000, s :: data⟩])
          (off + dbytes.length + 1 + data.length) :=
    fun dtv => parseStep_wf B acc s data rest (off + dbytes.length + 1) dtv hwf' hdropData hlenData
  have hoffeq : off + dbytes.length + 1 + data.length = off + dbytes.length + c.Payload.length := by
    rw [hp]
    simp
    omega
  rw [parseLoop, if_pos hoff]
  cases hcond : (acc.length > 0 || Z) with
  | true =>
    rw [if_pos hcond] at hdb
    obtain ⟨nv, hnv, rfl⟩ := hdb
    obtain ⟨v, hv⟩ := varintCore_read nv hnv (c.Payload ++ rest)
    rw [if_pos (rfl : (true : Bool) = true), hdrop, hv]
    dsimp only
    rw [hgetS]
    dsimp only
    rw [if_pos hstatus, hstep _]
    dsimp only
    rw [hoffeq, hp]
    exact ⟨_, rfl⟩
  | false =>
    rw [if_neg (by simp [hcond])] at hdb
    subst hdb
    rw [if_neg (by simp : ¬ ((false : Bool) = true))]
    dsimp only
    simp only [List.length_nil, Nat.add_zero] at hgetS hstep hoffeq ⊢
    rw [hgetS]
    dsimp only
    rw [if_pos hstatus, hstep _]
    dsimp only
    rw [hoffeq, hp]
    exact ⟨_, rfl⟩

theorem encodeDeltaTime_varint (d : Int) :
    ∃ nv, nv < 268435456 ∧ encodeDeltaTime d = varintCore nv :=
  ⟨d.toNat / 1000000 % 268435456, Nat.mod_lt _ (by norm_num), rfl⟩

theorem parseLoop_wf_list :
    ∀ (cs : List MIDICommand) (fuel : Nat) (B : List Nat) (acc : List MIDICommand)
      (ls off : Nat) (Z : Bool),
      (∀ c ∈ cs, wfPayload c.Payload = true) →
      acc ≠ [] →
      B.drop off = bodyRest cs →
      B.length = off + (bodyRest cs).length →
      cs.length < fuel →
      ∃ ds : List MIDICommand,
        parseLoop B B.length Z fuel acc ls off = .ok (acc ++ ds) false ∧
        ds.map (fun c => c.Payload) = cs.map (fun c => c.Payload) := by
  intro cs
  induction cs with
  | nil =>
    intro fuel B acc ls off Z hwf hacc hdrop hlen hfuel
    obtain ⟨f, rfl⟩ : ∃ f, fuel = f + 1 := ⟨fuel - 1, by omega⟩
    refine ⟨[], ?_, rfl⟩
    rw [parseLoop, if_neg (by simp only [bodyRest, List.length_nil] at hlen; omega)]
    simp
  | cons c cs ih =>
    intro fuel B acc ls off Z hwf hacc hdrop hlen hfuel
    obtain ⟨f, rfl⟩ : ∃ f, fuel = f + 1 := ⟨fuel - 1, by omega⟩
    obtain ⟨nv, hnv, hvar⟩ := encodeDeltaTime_varint c.DeltaTime
    have hwfc : wfPayload c.Payload = true := hwf c (by simp)
    have hpne : c.Payload ≠ [] := by
      cases hcp : c.Payload with
      | nil => rw [hcp] at hwfc; exact absurd hwfc (by simp [wfPayload])
      | cons a b => simp
    have hbody : bodyRest (c :: cs)
        = encodeDeltaTime c.DeltaTime ++ (c.Payload ++ bodyRest cs) := by
      simp [bodyRest]
    rw [hbody] at hdrop hlen
    have hdb : if (acc.length > 0 || Z) = true
        then ∃ nv, nv < 268435456 ∧ encodeDeltaTime c.DeltaTime = varintCore nv
        else encodeDeltaTime c.DeltaTime = [] := by
      rw [if_pos ?_]
      · exact ⟨nv, hnv, hvar⟩
      · have : acc.length > 0 := List.length_pos.mpr hacc
        simp [this]
    have hlen' : B.length = off + (encodeDeltaTime c.DeltaTime).length
        + c.Payload.length + (bodyRest cs).length := by
      simp only [List.length_append] at hlen
      omega
    have hoff : off < B.length := by
      have : 1 ≤ c.Payload.length := by
        cases hcp : c.Payload with
        | nil => exact absurd hcp hpne
        | cons a b => simp
      omega
    obtain ⟨d, hstep⟩ := parseLoop_consume B B.length Z f acc ls off c
      (encodeDeltaTime c.DeltaTime) (bodyRest cs) hwfc hdb hdrop hlen' hoff
    rw [hstep]
    have hdrop2 : B.drop (off + (encodeDeltaTime c.DeltaTime).length + c.Payload.length)
        = bodyRest cs := by
      have h1 := drop_shift B off (encodeDeltaTime c.DeltaTime) (c.Payload ++ bodyRest cs) hdrop
      have h2 := drop_shift B (off + (encodeDeltaTime c.DeltaTime).length) c.Payload
        (bodyRest cs) h1
      exact h2
    obtain ⟨ds, hloop, hmap⟩ := ih f B (acc ++ [⟨d, c.Payload⟩]) (c.Payload.headD 0)
      (off + (encodeDeltaTime c.DeltaTime).length + c.Payload.length) Z
      (fun x hx => hwf x (by simp [hx])) (by simp) hdrop2 (by omega) (by simp at hfuel; omega)
    refine ⟨⟨d, c.Payload⟩ :: ds, ?_, ?_⟩
    · rw [hloop]
      simp
    · simp [hmap]

theorem bodyRest_len_ge (cs : List MIDICommand) : cs.length ≤ (bodyRest cs).length := by
  induction cs with
  | nil => simp [bodyRest]
  | cons c t ih =>
    have h1 : 0 < (encodeDeltaTime c.DeltaTime).length := by
      obtain ⟨nv, _, hv⟩ := encodeDeltaTime_varint c.DeltaTime
      rw [hv]
      exact List.length_pos.mpr (varintCore_ne_nil nv)
    simp only [bodyRest, List.length_cons, List.length_append]
    omega

theorem decode_body (B : List Nat) (seq ssrc : Nat) (c : MIDICommand)
    (cs' : List MIDICommand) (listStart : Nat)
    (hB12 : ¬ B.length < minimumBufferLength)
    (hpt : ¬ byteAt B 1 &&& ptMask ≠ payloadType)
    (hseq : seqOf B = seq) (hssrc : ssrcOf B = ssrc)
    (hlh : listHeaderOf B
      = some (decide (0 < c.DeltaTime), listStart, (listBody (c :: cs')).length))
    (hdrop : B.drop listStart = listBody (c :: cs'))
    (hlen : B.length = listStart + (listBody (c :: cs')).length)
    (hwf : ∀ x ∈ c :: cs', wfPayload x.Payload = true) :
    ∃ ds : List MIDICommand, Decode B = .ok ⟨seq, ssrc, ⟨ds⟩⟩ ∧
      ds.map (fun x => x.Payload) = (c :: cs').map (fun x => x.Payload) := by
  have hwfc : wfPayload c.Payload = true := hwf c (by simp)
  have hpne : c.Payload ≠ [] := by
    cases hcp : c.Payload with
    | nil => rw [hcp] at hwfc; exact absurd hwfc (by simp [wfPayload])
    | cons a b => simp
  have hplen : 0 < c.Payload.length := List.length_pos.mpr hpne
  set L := (listBody (c :: cs')).length with hLdef
  set dbytes : List Nat := if 0 < c.DeltaTime then encodeDeltaTime c.DeltaTime else []
    with hdbdef
  have hbodysplit : listBody (c :: cs') = dbytes ++ (c.Payload ++ bodyRest cs') := by
    rw [hdbdef]
    simp [listBody, List.append_assoc]
  have hLsum : L = dbytes.length + c.Payload.length + (bodyRest cs').length := by
    rw [hLdef, hbodysplit]
    simp [List.length_append]
    omega
  have hdb : if (([] : List MIDICommand).length > 0 || decide (0 < c.DeltaTime)) = true
      then ∃ nv, nv < 268435456 ∧ dbytes = varintCore nv
      else dbytes = [] := by
    by_cases hdt : 0 < c.DeltaTime
    · rw [if_pos (by simp [hdt])]
      obtain ⟨nv, hnv, hv⟩ := encodeDeltaTime_varint c.DeltaTime
      exact ⟨nv, hnv, by rw [hdbdef, if_pos hdt, hv]⟩
    · rw [if_neg (by simp [hdt])]
      rw [hdbdef, if_neg hdt]
  have hdrop' : B.drop listStart = dbytes ++ (c.Payload ++ bodyRest cs') := by
    rw [hdrop, hbodysplit]
  have hlen' : B.length = listStart + dbytes.length + c.Payload.length
      + (bodyRest cs').length := by
    omega
  have hoff : listStart < B.length := by omega
  obtain ⟨d, hstep⟩ := parseLoop_consume B B.length (decide (0 < c.DeltaTime)) (2 * L + 3)
    [] 0 listStart c dbytes (bodyRest cs') hwfc hdb hdrop' hlen' hoff
  have hdrop2 : B.drop (listStart + dbytes.length + c.Payload.length) = bodyRest cs' := by
    have h1 := drop_shift B listStart dbytes (c.Payload ++ bodyRest cs') hdrop'
    exact drop_shift B (listStart + dbytes.length) c.Payload (bodyRest cs') h1
  have hrestlen : cs'.length ≤ (bodyRest cs').length := bodyRest_len_ge cs'
  obtain ⟨ds', hloop, hmap⟩ := parseLoop_wf_list cs' (2 * L + 3) B [⟨d, c.Payload⟩]
    (c.Payload.headD 0) (listStart + dbytes.length + c.Payload.length)
    (decide (0 < c.DeltaTime)) (fun x hx => hwf x (by simp [hx])) (by simp)
    hdrop2 (by omega) (by omega)
  unfold Decode
  rw [if_neg hB12, if_neg hpt, hlh]
  dsimp only
  unfold parseMIDIList
  rw [show listStart + L = B.length from by omega]
  rw [show 2 * L + 4 = (2 * L + 3) + 1 from rfl]
  rw [hstep]
  simp only [List.nil_append]
  rw [hloop]
  refine ⟨⟨d, c.Payload⟩ :: ds', by rw [hseq, hssrc]; rfl, ?_⟩
  simp [hmap]

theorem hdr_and32 : ∀ hi < 16,
    ((0 ||| 128 ||| hi) &&& 32 = 0) ∧ ((32 ||| 128 ||| hi) &&& 32 = 32) := by decide

theorem compact_and32 : ∀ len < 16,
    ((0 ||| len) &&& 32 = 0) ∧ ((32 ||| len) &&& 32 = 32) := by decide

theorem big_hdr_len : ∀ hi < 16, ∀ lo < 256,
    (((0 ||| 128 ||| hi) * 256 + lo) &&& 4095 = hi * 256 + lo) ∧
    (((32 ||| 128 ||| hi) * 256 + lo) &&& 4095 = hi * 256 + lo) := by decide

theorem encode_header_facts (B : List Nat) (seq ssrc ts : Nat) (listSec : List Nat)
    (hs : seq < 65536) (hss : ssrc < 4294967296)
    (hB : B = firstByte :: secondByte :: (be16 (seq % 65536) ++ be32 (ts % 4294967296)
      ++ be32 (ssrc % 4294967296) ++ listSec)) :
    B.length = 12 + listSec.length ∧
    byteAt B 1 &&& ptMask = payloadType ∧
    seqOf B = seq ∧ ssrcOf B = ssrc ∧
    B[12]? = listSec[0]? ∧ B[13]? = listSec[1]? ∧
    B.drop 13 = listSec.drop 1 ∧ B.drop 14 = listSec.drop 2 := by
  subst hB
  refine ⟨?_, ?_, ?_, ?_, ?_, ?_, ?_, ?_⟩
  · simp only [be16, be32, List.cons_append, List.nil_append, List.length_cons,
      List.length_append]
    omega
  · have hb1 : byteAt (firstByte :: secondByte :: (be16 (seq % 65536)
        ++ be32 (ts % 4294967296) ++ be32 (ssrc % 4294967296) ++ listSec)) 1
        = secondByte := by
      simp [byteAt, be16, be32]
    rw [hb1]
    decide
  · have h2 : byteAt (firstByte :: secondByte :: (be16 (seq % 65536)
        ++ be32 (ts % 4294967296) ++ be32 (ssrc % 4294967296) ++ listSec)) 2
        = ((seq % 65536) >>> 8) % 256 := by
      simp [byteAt, be16, be32]
    have h3 : byteAt (firstByte :: secondByte :: (be16 (seq % 65536)
        ++ be32 (ts % 4294967296) ++ be32 (ssrc % 4294967296) ++ listSec)) 3
        = (seq % 65536) % 256 := by
      simp [byteAt, be16, be32]
    unfold seqOf
    rw [h2, h3, Nat.mod_eq_of_lt hs, Nat.shiftRight_eq_div_pow]
    have hp : (2 : Nat) ^ 8 = 256 := by norm_num
    rw [hp]
    omega
  · have h8 : byteAt (firstByte :: secondByte :: (be16 (seq % 65536)
        ++ be32 (ts % 4294967296) ++ be32 (ssrc % 4294967296) ++ listSec)) 8
        = ((ssrc % 4294967296) >>> 24) % 256 := by
      simp [byteAt, be16, be32]
    have h9 : byteAt (firstByte :: secondByte :: (be16 (seq % 65536)
        ++ be32 (ts % 4294967296) ++ be32 (ssrc % 4294967296) ++ listSec)) 9
        = ((ssrc % 4294967296) >>> 16) % 256 := by
      simp [byteAt, be16, be32]
    have h10 : byteAt (firstByte :: secondByte :: (be16 (seq % 65536)
        ++ be32 (ts % 4294967296) ++ be32 (ssrc % 4294967296) ++ listSec)) 10
        = ((ssrc % 4294967296) >>> 8) % 256 := by
      simp [byteAt, be16, be32]
    have h11 : byteAt (firstByte :: secondByte :: (be16 (seq % 65536)
        ++ be32 (ts % 4294967296) ++ be32 (ssrc % 4294967296) ++ listSec)) 11
        = (ssrc % 4294967296) % 256 := by
      simp [byteAt, be16, be32]
    unfold ssrcOf
    rw [h8, h9, h10, h11, Nat.mod_eq_of_lt hss, Nat.shiftRight_eq_div_pow,
      Nat.shiftRight_eq_div_pow, Nat.shiftRight_eq_div_pow]
    have h24 : (2 : Nat) ^ 24 = 16777216 := by norm_num
    have h16 : (2 : Nat) ^ 16 = 65536 := by norm_num
    have h8p : (2 : Nat) ^ 8 = 256 := by norm_num
    rw [h24, h16, h8p]
    omega
  · simp [be16, be32]
  · simp [be16, be32]
  · simp [be16, be32, List.drop_succ_cons]
  · simp [be16, be32, List.drop_succ_cons]

/-- Claim C1 refutation: a Message whose single command is a note-on
status byte without its two data bytes has a non-empty command list
and a 2-byte encoded body, yet decoding the encoding silently loses
the command: the command count is 0 instead of 1.  -/
theorem c1_roundtrip_counterexample :
    (listBody [⟨0, [0x90]⟩]).length ≤ 4095 ∧
    ([⟨(0 : Int), [0x90]⟩] : List MIDICommand).length = 1 ∧
    Decode (Encode ⟨5, 7, ⟨[⟨0, [0x90]⟩]⟩⟩ 0) = .ok ⟨5, 7, ⟨[]⟩⟩ := by decide

/-- Claim C1 as amended: for every Message with a non-empty list of
well-formed commands (payload headed by a status byte; non-SysEx
payloads carrying exactly the data-byte count of their status; SysEx
payloads ending in F7 after data octets below 80) whose encoded MIDI
list body is at most 4095 bytes, decoding the encoding succeeds and
reproduces the sequence number, the SSRC, the command count and,
command for command, the exact payload bytes (delta times are
re-quantized by the modelled timestamp collaborator and are not
compared).  -/
theorem c1_roundtrip_amended :
    ∀ (cs : List MIDICommand) (seq ssrc ts : Nat),
      cs ≠ [] →
      (∀ c ∈ cs, wfPayload c.Payload = true) →
      seq < 65536 → ssrc < 4294967296 →
      (listBody cs).length ≤ 4095 →
      ∃ ds : List MIDICommand,
        Decode (Encode ⟨seq, ssrc, ⟨cs⟩⟩ ts) = .ok ⟨seq, ssrc, ⟨ds⟩⟩ ∧
        ds.map (fun c => c.Payload) = cs.map (fun c => c.Payload) ∧
        ds.length = cs.length := by
  intro cs seq ssrc ts hne hwf hs hss hbody
  obtain ⟨c, cs', rfl⟩ := List.exists_cons_of_ne_nil hne
  have hB : Encode ⟨seq, ssrc, ⟨c :: cs'⟩⟩ ts
      = firstByte :: secondByte :: (be16 (seq % 65536) ++ be32 (ts % 4294967296)
        ++ be32 (ssrc % 4294967296) ++ MIDICommands.encode ⟨c :: cs'⟩) := rfl
  obtain ⟨hlen12, hpt, hseq, hssrc, h12, h13, hd13, hd14⟩ :=
    encode_header_facts _ seq ssrc ts (MIDICommands.encode ⟨c :: cs'⟩) hs hss hB
  have hpt' : ¬ (byteAt (Encode ⟨seq, ssrc, ⟨c :: cs'⟩⟩ ts) 1 &&& ptMask ≠ payloadType) := by
    simp [hpt]
  set L := (listBody (c :: cs')).length with hLdef
  have hbody' : L ≤ 4095 := hbody
  have hz : zFlagOf (c :: cs') = if 0 < c.DeltaTime then 32 else 0 := rfl
  have hzor : zFlagOf (c :: cs') = 0 ∨ zFlagOf (c :: cs') = 32 := by
    rw [hz]
    by_cases hdt : 0 < c.DeltaTime
    · right; rw [if_pos hdt]
    · left; rw [if_neg hdt]
  have hmaplen : ∀ ds : List MIDICommand,
      ds.map (fun x => x.Payload) = (c :: cs').map (fun x => x.Payload) →
      ds.length = (c :: cs').length := by
    intro ds hmap
    have := congrArg List.length hmap
    simpa using this
  by_cases hwide : L > 15
  · -- extended two-octet header
    have hsec : MIDICommands.encode ⟨c :: cs'⟩
        = (zFlagOf (c :: cs') ||| bigHeaderBit ||| ((L >>> 8) &&& lenMask))
          :: (L % 256) :: listBody (c :: cs') := by
      simp only [MIDICommands.encode]
      rw [if_neg (by omega), if_pos (by omega)]
    have hLdiv : L >>> 8 = L / 256 := by rw [Nat.shiftRight_eq_div_pow]
    have hhi : L >>> 8 < 16 := by omega
    have hand : (L >>> 8) &&& lenMask = L >>> 8 := by
      rw [show lenMask = 15 from rfl]
      exact and15_small _ hhi
    have hlo : L % 256 < 256 := Nat.mod_lt _ (by norm_num)
    have hb128 : (zFlagOf (c :: cs') ||| bigHeaderBit ||| ((L >>> 8) &&& lenMask))
        &&& bigHeaderBit = 128 := by
      rw [hand, show bigHeaderBit = 128 from rfl]
      rcases hzor with h | h <;> rw [h]
      · exact (hdr_low_bits _ hhi).1
      · exact (hdr_low_bits _ hhi).2.1
    have hblen : ((zFlagOf (c :: cs') ||| bigHeaderBit ||| ((L >>> 8) &&& lenMask)) * 256
        + L % 256) &&& 0x0fff = L := by
      rw [hand, show bigHeaderBit = 128 from rfl]
      rcases hzor with h | h <;> rw [h]
      · rw [(big_hdr_len _ hhi _ hlo).1, hLdiv]
        omega
      · rw [(big_hdr_len _ hhi _ hlo).2, hLdiv]
        omega
    have hbz : decide (0 < (zFlagOf (c :: cs') ||| bigHeaderBit ||| ((L >>> 8) &&& lenMask))
        &&& zeroDeltaBit) = decide (0 < c.DeltaTime) := by
      rw [hand, show bigHeaderBit = 128 from rfl, show zeroDeltaBit = 32 from rfl]
      by_cases hdt : 0 < c.DeltaTime
      · rw [show zFlagOf (c :: cs') = 32 from by rw [hz, if_pos hdt]]
        rw [(hdr_and32 _ hhi).2]
        simp [hdt]
      · rw [show zFlagOf (c :: cs') = 0 from by rw [hz, if_neg hdt]]
        rw [(hdr_and32 _ hhi).1]
        simp [hdt]
    have hlh : listHeaderOf (Encode ⟨seq, ssrc, ⟨c :: cs'⟩⟩ ts)
        = some (decide (0 < c.DeltaTime), 14, L) := by
      unfold listHeaderOf
      rw [h12, hsec]
      simp only [List.getElem?_cons_zero]
      rw [if_pos (by rw [hb128]; omega)]
      rw [h13, hsec]
      simp only [List.getElem?_cons_succ, List.getElem?_cons_zero]
      rw [hblen, hbz]
    have hdrop : (Encode ⟨seq, ssrc, ⟨c :: cs'⟩⟩ ts).drop 14 = listBody (c :: cs') := by
      rw [hd14, hsec]
      simp
    have hlen : (Encode ⟨seq, ssrc, ⟨c :: cs'⟩⟩ ts).length = 14 + L := by
      rw [hlen12, hsec]
      simp only [List.length_cons]
      omega
    obtain ⟨ds, hdec, hmap⟩ := decode_body (Encode ⟨seq, ssrc, ⟨c :: cs'⟩⟩ ts) seq ssrc c cs'
      14 (by rw [hlen]; unfold minimumBufferLength; omega) hpt' hseq hssrc hlh hdrop
      (by rw [hlen]) hwf
    exact ⟨ds, hdec, hmap, hmaplen ds hmap⟩
  · -- compact one-octet header
    have hsec : MIDICommands.encode ⟨c :: cs'⟩
        = (zFlagOf (c :: cs') ||| (L &&& lenMask)) :: listBody (c :: cs') := by
      simp only [MIDICommands.encode]
      rw [if_neg (by omega), if_neg (by omega)]
    have hL16 : L < 16 := by omega
    have hand : L &&& lenMask = L := by
      rw [show lenMask = 15 from rfl]
      exact and15_small _ hL16
    have hb128 : (zFlagOf (c :: cs') ||| (L &&& lenMask)) &&& bigHeaderBit = 0 := by
      rw [hand, show bigHeaderBit = 128 from rfl]
      rcases hzor with h | h <;> rw [h]
      · exact (compact_hdr_bits _ hL16).1
      · exact (compact_hdr_bits _ hL16).2.1
    have hblen : (zFlagOf (c :: cs') ||| (L &&& lenMask)) &&& lenMask = L := by
      rw [hand, show lenMask = 15 from rfl]
      rcases hzor with h | h <;> rw [h]
      · exact (compact_hdr_bits _ hL16).2.2.1
      · exact (compact_hdr_bits _ hL16).2.2.2
    have hbz : decide (0 < (zFlagOf (c :: cs') ||| (L &&& lenMask)) &&& zeroDeltaBit)
        = decide (0 < c.DeltaTime) := by
      rw [hand, show zeroDeltaBit = 32 from rfl]
      by_cases hdt : 0 < c.DeltaTime
      · rw [show zFlagOf (c :: cs') = 32 from by rw [hz, if_pos hdt]]
        rw [(compact_and32 _ hL16).2]
        simp [hdt]
      · rw [show zFlagOf (c :: cs') = 0 from by rw [hz, if_neg hdt]]
        rw [(compact_and32 _ hL16).1]
        simp [hdt]
    have hlh : listHeaderOf (Encode ⟨seq, ssrc, ⟨c :: cs'⟩⟩ ts)
        = some (decide (0 < c.DeltaTime), 13, L) := by
      unfold listHeaderOf
      rw [h12, hsec]
      simp only [List.getElem?_cons_zero]
      rw [if_neg (by rw [hb128]; omega)]
      rw [hblen, hbz]
    have hdrop : (Encode ⟨seq, ssrc, ⟨c :: cs'⟩⟩ ts).drop 13 = listBody (c :: cs') := by
      rw [hd13, hsec]
      simp
    have hlen : (Encode ⟨seq, ssrc, ⟨c :: cs'⟩⟩ ts).length = 13 + L := by
      rw [hlen12, hsec]
      simp only [List.length_cons]
      omega
    obtain ⟨ds, hdec, hmap⟩ := decode_body (Encode ⟨seq, ssrc, ⟨c :: cs'⟩⟩ ts) seq ssrc c cs'
      13 (by rw [hlen]; unfold minimumBufferLength; omega) hpt' hseq hssrc hlh hdrop
      (by rw [hlen]) hwf
    exact ⟨ds, hdec, hmap, hmaplen ds hmap⟩

/-- Claim C1 witness: the amended round-trip applied to a concrete
six-command message exercising plain, running-length-zero, SysEx and
zero-data commands with both zero and positive delta times.  -/
theorem c1_roundtrip_amended_witness :
    ∃ ds : List MIDICommand,
      Decode (Encode ⟨65535, 4294967295,
        ⟨[⟨0, [0x90, 1, 2]⟩, ⟨7000000, [0xf6]⟩, ⟨0, [0xf0, 0x7f, 0xf7]⟩,
          ⟨1, [0xff]⟩, ⟨0, [0xb0, 1, 2]⟩, ⟨0, [0x80, 3, 4]⟩]⟩⟩ 5)
        = .ok ⟨65535, 4294967295, ⟨ds⟩⟩ ∧
      ds.map (fun c => c.Payload)
        = ([⟨0, [0x90, 1, 2]⟩, ⟨7000000, [0xf6]⟩, ⟨0, [0xf0, 0x7f, 0xf7]⟩,
            ⟨1, [0xff]⟩, ⟨0, [0xb0, 1, 2]⟩,
            ⟨0, [0x80, 3, 4]⟩] : List MIDICommand).map (fun c => c.Payload) ∧
      ds.length = ([⟨0, [0x90, 1, 2]⟩, ⟨7000000, [0xf6]⟩, ⟨0, [0xf0, 0x7f, 0xf7]⟩,
            ⟨1, [0xff]⟩, ⟨0, [0xb0, 1, 2]⟩,
            ⟨0, [0x80, 3, 4]⟩] : List MIDICommand).length :=
  c1_roundtrip_amended
    [⟨0, [0x90, 1, 2]⟩, ⟨7000000, [0xf6]⟩, ⟨0, [0xf0, 0x7f, 0xf7]⟩,
     ⟨1, [0xff]⟩, ⟨0, [0xb0, 1, 2]⟩, ⟨0, [0x80, 3, 4]⟩]
    65535 4294967295 5 (by decide) (by decide) (by decide) (by decide) (by decide)
